import Mathlib

/-!
Verification of NutriGuide-Plus core logic.

This file gives a shallow embedding of the parts of the NutriGuide-Plus
service relevant to its stated behavioural properties:

* `src/app/routers/analyze.py` — request validation and the confidence
  suffix on the returned profile name;
* `src/app/services/hybrid_food_recognizer.py` — food-name normalization
  and the weighted ensemble combiner with its agreement bonus;
* `src/app/services/verifier.py` — calorie verification against the
  canonical reference table (the CSV itself ships outside the source
  tree, so the table is a parameter);
* `src/app/services/generator.py` — serving-size scaling of nutrition
  values (the JSON nutrition database is likewise a parameter).

Python floats are embedded as rationals, Python exceptions as explicit
`Except` values, and Python dict iteration as folds over the fixed
insertion order used by the source.
-/

/-! ## Python string primitives used by the services -/

/-- Characters treated as whitespace by Python `str.strip`. -/
def pySpace (c : Char) : Bool :=
  c = ' ' || c = '\t' || c = '\n' || c = '\r' || c = '\x0b' || c = '\x0c'

/-- Python `str.strip()` on a character list. -/
def pyStripChars (l : List Char) : List Char :=
  ((l.dropWhile pySpace).reverse.dropWhile pySpace).reverse

/-- Python `str.lower()` (ASCII case folding, as used on the food names here). -/
def strLower (s : String) : String :=
  String.mk (s.data.map Char.toLower)

/-- Python `s.lower().strip()`. -/
def pyLowerStrip (s : String) : String :=
  String.mk (pyStripChars (s.data.map Char.toLower))

/-- Python substring test `needle in hay` on character lists. -/
def isSubstrList : List Char → List Char → Bool
  | needle, [] => needle.isEmpty
  | needle, c :: rest => List.isPrefixOf needle (c :: rest) || isSubstrList needle rest

/-- Python substring test `needle in hay` on strings. -/
def isSubstr (needle hay : String) : Bool :=
  isSubstrList needle.data hay.data

/-- Python `any(word in s for word in ws)`. -/
def containsAny (s : String) (ws : List String) : Bool :=
  ws.any (fun w => isSubstr w s)

/-! ## `HybridFoodRecognizer._normalize_food_name` -/

/-- The `food_aliases` mapping of `HybridFoodRecognizer`, in dict insertion
order (Python dicts iterate in insertion order). -/
def foodAliases : List (String × String) :=
  [("hamburger", "burger"),
   ("cheeseburger", "burger"),
   ("beef burger", "burger"),
   ("french fries", "french fries"),
   ("fries", "french fries"),
   ("chips", "french fries"),
   ("spaghetti", "pasta"),
   ("noodles", "pasta"),
   ("fettuccine", "pasta"),
   ("linguine", "pasta"),
   ("beef", "steak"),
   ("ribeye", "steak"),
   ("sirloin", "steak"),
   ("chicken breast", "grilled chicken"),
   ("roasted chicken", "grilled chicken"),
   ("green salad", "salad"),
   ("caesar salad", "salad"),
   ("garden salad", "salad"),
   ("fruit salad", "fruit bowl"),
   ("mixed fruit", "fruit bowl"),
   ("white rice", "rice"),
   ("brown rice", "rice"),
   ("fried rice", "rice")]

/-- The alias scan of `_normalize_food_name`: the first alias key occurring
as a substring of the lowered name wins. -/
def findAlias (foodLower : String) : Option String :=
  foodAliases.findSome? (fun pr => if isSubstr pr.1 foodLower then some pr.2 else none)

/-- One pass of the suffix-stripping loop: `food_lower[:-len(suffix)].strip()`. -/
def dropSuffixAndStrip (l : List Char) (suf : List Char) : List Char :=
  pyStripChars (l.take (l.length - suf.length))

/-- The suffix-stripping loop of `_normalize_food_name` over
`[" dish", " plate", " bowl", " item", " food"]` in order. -/
def stripFoodSuffixes (l : List Char) : List Char :=
  [" dish", " plate", " bowl", " item", " food"].foldl
    (fun acc suf =>
      if List.isSuffixOf suf.data acc then dropSuffixAndStrip acc suf.data else acc) l

/-- `HybridFoodRecognizer._normalize_food_name`.  Empty input returns the
fixed fallback; otherwise the lowered and stripped name is matched against
the alias table, then suffix-stripped; `food_lower or food_name` returns the
original argument when stripping has emptied the name. -/
def normalizeFood (s : String) : String :=
  if s = "" then "unidentified food"
  else
    let fl := pyLowerStrip s
    match findAlias fl with
    | some target => target
    | none =>
      let fl2 := String.mk (stripFoodSuffixes fl.data)
      if fl2 = "" then s else fl2

/-! ## `analyze` request validation (`src/app/routers/analyze.py`) -/

/-- Outcome of `base64.b64decode` + `Image.open` on the request body. -/
inductive ImageDecode
  | failed
  | decoded (width height : Nat)
deriving DecidableEq

/-- A Python exception as seen by the handler: an `HTTPException` carrying a
status, or any other exception. -/
inductive RequestError
  | http (status : Nat)
  | unexpected
deriving DecidableEq

/-- The body of the inner `try` of `analyze`: decoding failure raises a
generic exception, a decoded image smaller than 50×50 raises
`HTTPException(422)`. -/
def imageValidationBlock : ImageDecode → Except RequestError Unit
  | .failed => .error .unexpected
  | .decoded w h =>
    if w < 50 || h < 50 then .error (.http 422) else .ok ()

/-- The inner `try`/`except Exception` of `analyze`: any exception raised by
the block — including the `HTTPException(422)` it raised itself — is caught
and re-raised as `HTTPException(400)`. -/
def imageValidation (d : ImageDecode) : Except RequestError Unit :=
  match imageValidationBlock d with
  | .ok u => .ok u
  | .error _ => .error (.http 400)

/-- The HTTP status produced by the validation phase of `analyze`, after the
outer `except HTTPException: raise` / `except Exception: 500` handlers:
`some s` means the request is rejected with status `s`, `none` means it
proceeds to classification. -/
def analyzeValidationStatus (d : ImageDecode) : Option Nat :=
  match imageValidation d with
  | .error (.http s) => some s
  | .error .unexpected => some 500
  | .ok _ => none

/-! ## `verify_profile` (`src/app/services/verifier.py`)

The canonical CSV `data/canonical_foods.csv` is reference data living
outside the source tree, so the table is passed as an explicit parameter:
a list of rows in file order, mirroring the pandas frame. -/

/-- One row of `data/canonical_foods.csv`. -/
structure CanonRow where
  name : String
  calories : ℚ
  serving_grams : ℚ
deriving DecidableEq

/-- The `NutritionProfile` pydantic model. -/
structure NutritionProfile where
  name : String
  serving_grams : ℚ
  calories : ℚ
  macros : List (String × ℚ)
  micronutrients : List (String × ℚ)
deriving DecidableEq

/-- The `VerificationItem` pydantic model. -/
structure VerificationItem where
  claim : String
  status : String
  evidence : String
  confidence : ℚ
deriving DecidableEq

/-- The `VerificationReport` pydantic model. -/
structure VerificationReport where
  items : List VerificationItem
  overall_confidence : ℚ
deriving DecidableEq

/-- The pandas lookup `_CANON[_CANON["name"].str.lower() == profile.name.lower()]`
followed by `.iloc[0]`: the first row whose name matches case-insensitively. -/
def findCanonRow (table : List CanonRow) (nm : String) : Option CanonRow :=
  table.find? (fun row => strLower row.name == strLower nm)

/-- `verify_profile`: a found row flags the calorie claim `"supported"` when
`abs(calories - target) / max(1.0, target) <= 0.15`, else `"flagged"`; an
absent name always yields one `"flagged"` item with confidence 0.30.  The
overall confidence is the mean of the item confidences. -/
def verify_profile (table : List CanonRow) (profile : NutritionProfile) :
    VerificationReport :=
  match findCanonRow table profile.name with
  | some row =>
    let target := row.calories
    let delta := |profile.calories - target| / max 1 target
    let ok := delta ≤ 15/100
    let item : VerificationItem :=
      { claim := "Calories approximately " ++ toString profile.calories
        status := if ok then "supported" else "flagged"
        evidence := "Canonical ~ " ++ toString target ++ " kcal per " ++
          toString row.serving_grams ++ " g"
        confidence := if ok then 85/100 else 45/100 }
    { items := [item]
      overall_confidence :=
        ([item].map (fun i => i.confidence)).sum / ([item].length : ℚ) }
  | none =>
    let item : VerificationItem :=
      { claim := "Unknown food: " ++ profile.name
        status := "flagged"
        evidence := "Not found in canonical subset"
        confidence := 30/100 }
    { items := [item], overall_confidence := 30/100 }

/-- C6 counterexample input: a reference row with less than 1 kcal. -/
def canonRowLow : CanonRow := { name := "herbal tea", calories := 1/2, serving_grams := 100 }

/-- C6 counterexample input: a profile deviating by more than 15% of the
reference calories but by at most 0.15 absolute. -/
def profileLow : NutritionProfile :=
  { name := "herbal tea", serving_grams := 100, calories := 3/5, macros := [], micronutrients := [] }

/-! ## `calculate_dynamic_nutrition` (`src/app/services/generator.py`)

The nutrition JSON databases and the remote FoodData Central fallback are
reference data and a network service outside the source tree; the whole of
`get_nutrition_from_database` is therefore abstracted as a lookup function
`db : String → Option DBEntry` (it depends only on the food name). -/

/-- Python `round(q)`: round half to even (banker's rounding). -/
def pyRound (q : ℚ) : ℤ :=
  if q - (⌊q⌋ : ℚ) < 1/2 then ⌊q⌋
  else if 1/2 < q - (⌊q⌋ : ℚ) then ⌊q⌋ + 1
  else if Even ⌊q⌋ then ⌊q⌋ else ⌊q⌋ + 1

/-- Python `round(q, 1)`. -/
def pyRound1 (q : ℚ) : ℚ :=
  (pyRound (q * 10) : ℚ) / 10

/-- A per-100g-style entry of the nutrition database. -/
structure DBEntry where
  serving_size_g : ℚ
  calories : ℚ
  protein_g : ℚ
  carbs_g : ℚ
  fat_g : ℚ
  fiber_g : ℚ
  sugar_g : ℚ
  sodium_mg : ℚ
  cholesterol_mg : ℚ
deriving DecidableEq

/-- The dict returned by `calculate_dynamic_nutrition`. -/
structure NutritionFacts where
  serving_grams : ℚ
  calories : ℤ
  protein_g : ℚ
  carbs_g : ℚ
  fat_g : ℚ
  fiber_g : ℚ
  sugar_g : ℚ
  sodium_mg : ℤ
  cholesterol_mg : ℤ
deriving DecidableEq

/-- The per-150g base values of the keyword-bucket estimation, including the
in-branch adjustments (grilled/baked/fried for protein foods, the dressing
bonus for salads). -/
structure BaseNutrition where
  calories : ℚ
  protein : ℚ
  carbs : ℚ
  fat : ℚ
  fiber : ℚ
  sugar : ℚ
  sodium : ℚ
  cholesterol : ℚ
deriving DecidableEq

/-- The keyword-bucket `if`/`elif` chain of the fallback estimation in
`calculate_dynamic_nutrition`, applied to the lowered food name. -/
def fallbackBases (fl : String) : BaseNutrition :=
  if containsAny fl ["chicken", "turkey", "beef", "pork", "lamb", "fish",
      "salmon", "tuna", "shrimp", "eggs", "meat"] then
    if isSubstr "grilled" fl || isSubstr "baked" fl then
      ⟨280, 35, 2, 12 - 3, 0, 0, 80, 100⟩
    else if isSubstr "fried" fl then
      ⟨280 + 100, 35, 2, 12 + 8, 0, 0, 80, 100⟩
    else ⟨280, 35, 2, 12, 0, 0, 80, 100⟩
  else if containsAny fl ["rice", "pasta", "bread", "potato", "quinoa", "noodles"] then
    ⟨210, 6, 43, 1, 2, 1, 5, 0⟩
  else if containsAny fl ["salad", "vegetable", "broccoli", "spinach", "carrots",
      "peppers", "green"] then
    if isSubstr "salad" fl then
      ⟨50 + 80, 3, 10, 1/2 + 8, 4, 6, 30 + 200, 0⟩
    else ⟨50, 3, 10, 1/2, 4, 6, 30, 0⟩
  else if containsAny fl ["fruit", "apple", "banana", "berries", "mango",
      "watermelon", "strawberries"] then
    ⟨80, 1, 20, 3/10, 3, 15, 2, 0⟩
  else if containsAny fl ["pizza", "burger", "tacos", "sandwich", "burrito"] then
    ⟨350, 18, 40, 15, 3, 4, 600, 45⟩
  else if containsAny fl ["cake", "pie", "cookies", "ice cream", "brownie",
      "chocolate"] then
    ⟨380, 5, 55, 16, 2, 45, 350, 65⟩
  else if containsAny fl ["soup", "broth", "stew"] then
    ⟨120, 6, 18, 3, 2, 4, 500, 5⟩
  else ⟨200, 15, 25, 8, 2, 5, 250, 30⟩

/-- The serving-size determination of the fallback path, used only when no
serving size was passed (`if serving_grams is None`). -/
def fallbackServing (fl : String) (sg : Option ℚ) : ℚ :=
  match sg with
  | some s => s
  | none =>
    if containsAny fl ["soup", "smoothie", "juice", "shake"] then 250
    else if containsAny fl ["salad", "vegetables", "fruits"] then 200
    else if containsAny fl ["steak", "tenderloin", "chops"] then 180
    else 150

/-- `calculate_dynamic_nutrition`.  A database hit scales the stored values
by `target / serving_size_g` (where `serving_grams or serving_size_g` falls
back on a zero serving); otherwise the keyword buckets are scaled by
`serving_grams / 150`.  Calories, sodium and cholesterol are rounded to
integers, the gram fields to one decimal. -/
def calculate_dynamic_nutrition (db : String → Option DBEntry)
    (food_name : String) (serving_grams : Option ℚ) : NutritionFacts :=
  match db food_name with
  | some base =>
    let target :=
      match serving_grams with
      | some s => if s = 0 then base.serving_size_g else s
      | none => base.serving_size_g
    let scale := target / base.serving_size_g
    { serving_grams := target
      calories := pyRound (base.calories * scale)
      protein_g := pyRound1 (base.protein_g * scale)
      carbs_g := pyRound1 (base.carbs_g * scale)
      fat_g := pyRound1 (base.fat_g * scale)
      fiber_g := pyRound1 (base.fiber_g * scale)
      sugar_g := pyRound1 (base.sugar_g * scale)
      sodium_mg := pyRound (base.sodium_mg * scale)
      cholesterol_mg := pyRound (base.cholesterol_mg * scale) }
  | none =>
    let fl := strLower food_name
    let bases := fallbackBases fl
    let serving := fallbackServing fl serving_grams
    let scale := serving / 150
    { serving_grams := serving
      calories := pyRound (bases.calories * scale)
      protein_g := pyRound1 (bases.protein * scale)
      carbs_g := pyRound1 (bases.carbs * scale)
      fat_g := pyRound1 (bases.fat * scale)
      fiber_g := pyRound1 (bases.fiber * scale)
      sugar_g := pyRound1 (bases.sugar * scale)
      sodium_mg := pyRound (bases.sodium * scale)
      cholesterol_mg := pyRound (bases.cholesterol * scale) }

/-! ## The ensemble combiner (`HybridFoodRecognizer._combine_results`)

`recognize_food` always fills the `results` dict with the four keys below in
this insertion order, each mapped to a per-method result or `None`; the
combiner, the agreement bonus and the generic-category fallback iterate the
dict in that order. -/

/-- The four recognition methods, in `method_weights` insertion order. -/
inductive Method
  | google_vision
  | color_histogram
  | huggingface
  | feature_matching
deriving DecidableEq

/-- The `method_weights` configuration. -/
def methodWeight : Method → ℚ
  | .google_vision => 40/100
  | .color_histogram => 25/100
  | .huggingface => 20/100
  | .feature_matching => 15/100

/-- Dict iteration order of `method_weights` and `results`. -/
def methodOrder : List Method :=
  [.google_vision, .color_histogram, .huggingface, .feature_matching]

/-- An entry of a feature bag's `dominant_colors` list (only the first
entry's hue is ever read). -/
structure HSVColor where
  hue : ℚ
  sat : ℚ
  value : ℚ
deriving DecidableEq

/-- One method's entry in the `results` dict: normalized food label,
confidence, and the `dominant_colors` key of its feature bag when present. -/
structure MethodResult where
  food : String
  confidence : ℚ
  features : Option (List HSVColor)
deriving DecidableEq

/-- The `results` mapping passed to `_combine_results`. -/
abbrev EnsembleResults := Method → Option MethodResult

/-- `vote_scores[food] += weighted_score` on a Python dict represented as an
association list in insertion order: add in place if present, append if new. -/
def addVote : List (String × ℚ) → String → ℚ → List (String × ℚ)
  | [], f, v => [(f, v)]
  | (g, s) :: rest, f, v =>
    if g = f then (g, s + v) :: rest else (g, s) :: addVote rest f v

/-- Dict lookup `vote_scores[food]` (0 for an absent key). -/
def lookupScore : List (String × ℚ) → String → ℚ
  | [], _ => 0
  | (g, s) :: rest, f => if g = f then s else lookupScore rest f

/-- One iteration of the vote-collection loop of `_combine_results`. -/
def voteStep (r : EnsembleResults) (acc : List (String × ℚ)) (m : Method) :
    List (String × ℚ) :=
  match r m with
  | some d => addVote acc d.food (d.confidence * methodWeight m)
  | none => acc

/-- The `vote_scores` dict after the vote-collection loop. -/
def voteScores (r : EnsembleResults) : List (String × ℚ) :=
  methodOrder.foldl (voteStep r) []

/-- One iteration of the `total_weight` accumulation. -/
def weightStep (r : EnsembleResults) (acc : ℚ) (m : Method) : ℚ :=
  match r m with
  | some _ => acc + methodWeight m
  | none => acc

/-- `total_weight`: the summed weight of the methods that produced a result. -/
def totalWeight (r : EnsembleResults) : ℚ :=
  methodOrder.foldl (weightStep r) 0

/-- The normalization step `vote_scores[food] /= total_weight` (guarded by
`if total_weight > 0`). -/
def normVotes (r : EnsembleResults) : List (String × ℚ) :=
  if 0 < totalWeight r then
    (voteScores r).map (fun p => (p.1, p.2 / totalWeight r))
  else voteScores r

/-- Python `max(keys, key=get)`: scan left to right, replacing the current
best only on a strictly greater value, so the first maximal key wins. -/
def firstMaxAux : (String × ℚ) → List (String × ℚ) → (String × ℚ)
  | best, [] => best
  | best, p :: rest => firstMaxAux (if best.2 < p.2 then p else best) rest

/-- `best_food = max(vote_scores, key=vote_scores.get)` on the normalized
scores. -/
def bestFood (r : EnsembleResults) : String :=
  match normVotes r with
  | [] => "unidentified food"
  | p :: rest => (firstMaxAux p rest).1

/-- One iteration of `_calculate_agreement_bonus`: methods with confidence
above 0.6 count toward the total; those also voting for the target count as
agreements. -/
def bonusStep (r : EnsembleResults) (target : String) (ac : ℕ × ℕ)
    (m : Method) : ℕ × ℕ :=
  match r m with
  | some d =>
    if 6/10 < d.confidence then
      ((if d.food = target then ac.1 + 1 else ac.1), ac.2 + 1)
    else ac
  | none => ac

/-- The `(agreements, total_methods)` pair of `_calculate_agreement_bonus`. -/
def bonusCounts (r : EnsembleResults) (target : String) : ℕ × ℕ :=
  methodOrder.foldl (bonusStep r target) (0, 0)

/-- `_calculate_agreement_bonus`: 0 if no method reports confidence above
0.6, else 0.10 for an agreement rate of at least 75%, 0.05 for at least
50%, 0 otherwise. -/
def agreementBonus (r : EnsembleResults) (target : String) : ℚ :=
  let c := bonusCounts r target
  if c.2 = 0 then 0
  else
    let rate : ℚ := (c.1 : ℚ) / (c.2 : ℚ)
    if 75/100 ≤ rate then 10/100
    else if 1/2 ≤ rate then 5/100
    else 0

/-- The `all_features.update(result['features'])` merge restricted to the
`dominant_colors` key: the last method (in dict order) whose features carry
the key wins. -/
def mergedDominantColors (r : EnsembleResults) : Option (List HSVColor) :=
  methodOrder.foldl (fun acc m =>
    match r m with
    | some d =>
      match d.features with
      | some cs => some cs
      | none => acc
    | none => acc) none

/-- `_get_generic_category`: the hue of the first dominant color selects a
generic label; anything else falls through to `"mixed dish"`. -/
def genericCategory (r : EnsembleResults) : String :=
  match mergedDominantColors r with
  | some (c :: _) =>
    if 80 ≤ c.hue ∧ c.hue ≤ 140 then "vegetable dish"
    else if (0 ≤ c.hue ∧ c.hue ≤ 20) ∨ (340 ≤ c.hue ∧ c.hue ≤ 360) then "meat dish"
    else if 40 ≤ c.hue ∧ c.hue ≤ 60 then "grain dish"
    else "mixed dish"
  | _ => "mixed dish"

/-- `final_confidence = min(0.98, base_confidence + agreement_bonus)` where
`base_confidence = vote_scores[best_food]` after normalization (0.50 in the
unreachable empty case). -/
def finalConfidence (r : EnsembleResults) : ℚ :=
  if normVotes r = [] then 50/100
  else min (98/100)
    (lookupScore (normVotes r) (bestFood r) + agreementBonus r (bestFood r))

/-- `_combine_results`: the fixed fallback when no method voted, the generic
category below the 0.60 threshold, the best label otherwise. -/
def combineResults (r : EnsembleResults) : String × ℚ :=
  if voteScores r = [] then ("unidentified food", 50/100)
  else if finalConfidence r < 60/100 then (genericCategory r, finalConfidence r)
  else (bestFood r, finalConfidence r)

/-- Specification-side view of one method's weighted vote for a label. -/
def contrib (r : EnsembleResults) (f : String) (m : Method) : ℚ :=
  match r m with
  | some d => if d.food = f then d.confidence * methodWeight m else 0
  | none => 0

/-- Specification-side view of a label's raw (un-normalized) score. -/
def rawScore (r : EnsembleResults) (f : String) : ℚ :=
  (methodOrder.map (contrib r f)).sum

/-- Specification-side view of one method's contribution to `total_weight`. -/
def wContrib (r : EnsembleResults) (m : Method) : ℚ :=
  match r m with
  | some _ => methodWeight m
  | none => 0

/-- The label a method contributes to the agreement bonus, if its
confidence clears 0.6. -/
def eligibleFood (r : EnsembleResults) (m : Method) : Option String :=
  match r m with
  | some d => if 6/10 < d.confidence then some d.food else none
  | none => none

/-- C2 counterexample input, before the increase: Google Vision says pizza
at 0.9, the color histogram says salad at exactly 0.6. -/
def cexBefore : EnsembleResults
  | .google_vision => some ⟨"pizza", 9/10, none⟩
  | .color_histogram => some ⟨"salad", 6/10, none⟩
  | .huggingface => none
  | .feature_matching => none

/-- C2 counterexample input, after the increase: the color histogram's
confidence rises from 0.60 to 0.61, everything else unchanged. -/
def cexAfter : EnsembleResults
  | .google_vision => some ⟨"pizza", 9/10, none⟩
  | .color_histogram => some ⟨"salad", 61/100, none⟩
  | .huggingface => none
  | .feature_matching => none

/-- C9 witness input: a single low-confidence detection with no feature bag. -/
def lowConfResults : EnsembleResults
  | .google_vision => some ⟨"pizza", 3/10, none⟩
  | .color_histogram => none
  | .huggingface => none
  | .feature_matching => none

/-- C2 amended-claim witness input: a single Google Vision detection at 0.7. -/
def cexMonoA : EnsembleResults
  | .google_vision => some ⟨"pizza", 7/10, none⟩
  | .color_histogram => none
  | .huggingface => none
  | .feature_matching => none

/-- C2 amended-claim witness input: the same detection raised to 0.8. -/
def cexMonoB : EnsembleResults
  | .google_vision => some ⟨"pizza", 8/10, none⟩
  | .color_histogram => none
  | .huggingface => none
  | .feature_matching => none

/-! ## Confidence suffix of `analyze` (`src/app/routers/analyze.py`)

`classify_topk` and `generate_profile_and_recipes` sit in front of this
step; the handler only uses the resolved profile name, so the resolver is a
parameter from the top-k list to the resolved name. -/

/-- The post-classification phase of `analyze` on a non-empty top-k list:
below 0.4 the list is replaced by the image-based fallback at confidence
0.4 (the primary confidence keeps its original value), then the resolved
name gets the `" (estimated)"` suffix below 0.6; the dead
`elif 0.6 <= c < 0.8` branch keeps the name unchanged, as does falling
through.  An empty top-k rejects the request (`none`). -/
def analyzeProfileName (resolveName : List (String × ℚ) → String)
    (fallbackFood : String) (topk : List (String × ℚ)) : Option String :=
  match topk with
  | [] => none
  | (f, c) :: rest =>
    let primaryConfidence := c
    let topk2 := if primaryConfidence < 4/10 then [(fallbackFood, 4/10)]
      else (f, c) :: rest
    let name := resolveName topk2
    if primaryConfidence < 6/10 then some (name ++ " (estimated)")
    else if 6/10 ≤ primaryConfidence ∧ primaryConfidence < 8/10 then some name
    else some name

/-! ## Theorems -/

/-- Helper for the amended idempotence claim: `_normalize_food_name` fixes
any nonempty name that is already lowercase and stripped, matches no alias,
and carries no strippable suffix. -/
theorem normalizeFood_fixed (y : String) (h1 : y ≠ "")
    (h2 : pyLowerStrip y = y) (h3 : findAlias y = none)
    (h4 : stripFoodSuffixes y.data = y.data) :
    normalizeFood y = y := by
  have hmk : String.mk y.data = y := rfl
  rw [normalizeFood, if_neg h1]
  simp only [h2, h3, h4, hmk]
  exact if_neg h1

/-- C3 counterexample: normalization is not idempotent.  `"mixed fruit"`
normalizes to the alias target `"fruit bowl"`, but a second application
strips the `" bowl"` suffix and yields `"fruit"`. -/
theorem normalizeFood_not_idempotent :
    normalizeFood "mixed fruit" = "fruit bowl" ∧
    normalizeFood (normalizeFood "mixed fruit") = "fruit" ∧
    normalizeFood (normalizeFood "mixed fruit") ≠ normalizeFood "mixed fruit" := by
  decide

/-- C3 (amended): normalization is idempotent on every input whose
normalized form is nonempty, already lowercase and stripped, matches no
alias key, and ends in none of the strippable suffixes. -/
theorem normalizeFood_idempotent_amended (x : String)
    (h1 : normalizeFood x ≠ "")
    (h2 : pyLowerStrip (normalizeFood x) = normalizeFood x)
    (h3 : findAlias (normalizeFood x) = none)
    (h4 : stripFoodSuffixes (normalizeFood x).data = (normalizeFood x).data) :
    normalizeFood (normalizeFood x) = normalizeFood x :=
  normalizeFood_fixed (normalizeFood x) h1 h2 h3 h4

/-- C3 witness: the amended idempotence applies to `"pizza"`. -/
theorem normalizeFood_idempotent_amended_witness :
    normalizeFood (normalizeFood "pizza") = normalizeFood "pizza" :=
  normalizeFood_idempotent_amended "pizza" (by decide) (by decide) (by decide)
    (by decide)

/-- C1: the code routes a decoded-but-too-small image to HTTP 400, not the
422 the spec states, because the inner `except Exception` catches the
handler's own `HTTPException(422)`; undecodable input is routed to 400 as
specified. -/
theorem analyze_small_image_gets_400 :
    analyzeValidationStatus (ImageDecode.decoded 10 10) = some 400 ∧
    analyzeValidationStatus ImageDecode.failed = some 400 ∧
    analyzeValidationStatus (ImageDecode.decoded 10 10) ≠ some 422 := by
  decide

/-- C5: a profile whose name matches no row of the reference table always
yields a single `"flagged"` item with confidence 0.30 and overall
confidence 0.30, whatever its calorie and macro values. -/
theorem verify_unknown_flagged (table : List CanonRow) (p : NutritionProfile)
    (h : ∀ row ∈ table, strLower row.name ≠ strLower p.name) :
    (verify_profile table p).items.map (fun it => (it.status, it.confidence)) =
      [("flagged", 30/100)] ∧
    (verify_profile table p).overall_confidence = 30/100 := by
  have hfind : findCanonRow table p.name = none := by
    rw [findCanonRow, List.find?_eq_none]
    intro row hrow
    simpa using h row hrow
  rw [verify_profile, hfind]
  exact ⟨rfl, rfl⟩

/-- C5 witness: a name absent from a concrete one-row table. -/
theorem verify_unknown_flagged_witness :
    (verify_profile [⟨"banana", 105, 118⟩]
        ⟨"dragonfruit", 50, 60, [], []⟩).items.map
        (fun it => (it.status, it.confidence)) = [("flagged", 30/100)] ∧
    (verify_profile [⟨"banana", 105, 118⟩]
        ⟨"dragonfruit", 50, 60, [], []⟩).overall_confidence = 30/100 :=
  verify_unknown_flagged [⟨"banana", 105, 118⟩] ⟨"dragonfruit", 50, 60, [], []⟩
    (by decide)

/-- C6 counterexample: for a matched reference row with 0.5 kcal, a profile
at 0.6 kcal deviates by 0.1 — more than 15% of the reference value — yet the
verifier reports `"supported"`, because the code divides the deviation by
`max(1.0, target)` rather than by the reference value. -/
theorem verify_supported_beyond_15_percent :
    (verify_profile [canonRowLow] profileLow).items.map (fun it => it.status) =
      ["supported"] ∧
    ¬ (|profileLow.calories - canonRowLow.calories| ≤
        15/100 * canonRowLow.calories) := by
  have hfind : findCanonRow [canonRowLow] profileLow.name = some canonRowLow := by
    simp [findCanonRow, canonRowLow, profileLow, strLower]
  have habs : |profileLow.calories - canonRowLow.calories| = 1/10 := by
    simp only [profileLow, canonRowLow]
    norm_num
  have hok : |profileLow.calories - canonRowLow.calories| /
      max 1 canonRowLow.calories ≤ 15/100 := by
    rw [habs]
    simp only [canonRowLow]
    norm_num
  constructor
  · simp [verify_profile, hfind, hok]
  · rw [habs]
    simp only [canonRowLow]
    norm_num

/-- C6 (amended): for a profile whose name matches a reference row, the
calorie claim is `"supported"` exactly when the absolute deviation from the
reference calories is at most 15% of `max(1, reference)`, and `"flagged"`
otherwise. -/
theorem verify_matched_threshold (table : List CanonRow) (p : NutritionProfile)
    (row : CanonRow) (h : findCanonRow table p.name = some row) :
    ∃ it, (verify_profile table p).items = [it] ∧
      (it.status = "supported" ↔
        |p.calories - row.calories| ≤ 15/100 * max 1 row.calories) ∧
      (it.status = "flagged" ↔
        ¬ |p.calories - row.calories| ≤ 15/100 * max 1 row.calories) := by
  have hpos : (0 : ℚ) < max 1 row.calories :=
    lt_of_lt_of_le one_pos (le_max_left _ _)
  have hbridge : (|p.calories - row.calories| / max 1 row.calories ≤ 15/100) ↔
      |p.calories - row.calories| ≤ 15/100 * max 1 row.calories :=
    div_le_iff₀ hpos
  rw [verify_profile, h]
  by_cases hok : |p.calories - row.calories| / max 1 row.calories ≤ 15/100
  · refine ⟨_, rfl, ?_, ?_⟩
    · simp [hok, hbridge.mp hok]
    · simp [hok, hbridge.mp hok]
  · have hmul : ¬ |p.calories - row.calories| ≤ 15/100 * max 1 row.calories :=
      fun hcontr => hok (hbridge.mpr hcontr)
    refine ⟨_, rfl, ?_, ?_⟩
    · simp [hok, hmul]
    · simp [hok, hmul]

/-- C6 witness: a matched row at 105 kcal with a profile at 110 kcal is
within 15% and reported `"supported"`. -/
theorem verify_matched_threshold_witness :
    ∃ it, (verify_profile [⟨"banana", 105, 118⟩]
        ⟨"banana", 118, 110, [], []⟩).items = [it] ∧
      (it.status = "supported" ↔
        |(110 : ℚ) - 105| ≤ 15/100 * max 1 105) ∧
      (it.status = "flagged" ↔
        ¬ |(110 : ℚ) - 105| ≤ 15/100 * max 1 105) :=
  verify_matched_threshold [⟨"banana", 105, 118⟩] ⟨"banana", 118, 110, [], []⟩
    ⟨"banana", 105, 118⟩ (by decide)

/-- Rounding never strays more than half a unit: `|round(q) - q| ≤ 1/2`,
also under round-half-to-even. -/
theorem pyRound_abs (q : ℚ) : |(pyRound q : ℚ) - q| ≤ 1/2 := by
  have hf1 : (⌊q⌋ : ℚ) ≤ q := Int.floor_le q
  have hf2 : q < (⌊q⌋ : ℚ) + 1 := Int.lt_floor_add_one q
  rw [pyRound]
  split_ifs with h1 h2 h3
  · rw [abs_sub_comm, abs_of_nonneg (by linarith)]
    linarith
  · push_cast
    rw [abs_of_nonneg (by linarith)]
    linarith
  · rw [abs_sub_comm, abs_of_nonneg (by linarith)]
    linarith
  · push_cast
    rw [abs_of_nonneg (by linarith)]
    linarith

/-- Doubling commutes with rounding up to one unit:
`|round(2x) - 2·round(x)| ≤ 1` over the integers. -/
theorem pyRound_double (x : ℚ) : |pyRound (2 * x) - 2 * pyRound x| ≤ 1 := by
  have h1 : |(pyRound (2 * x) : ℚ) - 2 * x| ≤ 1/2 := pyRound_abs (2 * x)
  have h2 : |(pyRound x : ℚ) - x| ≤ 1/2 := pyRound_abs x
  have h3 : |((pyRound (2 * x) - 2 * pyRound x : ℤ) : ℚ)| ≤ 3/2 := by
    have hsplit :
        ((pyRound (2 * x) - 2 * pyRound x : ℤ) : ℚ) =
          ((pyRound (2 * x) : ℚ) - 2 * x) + (2 * x - 2 * (pyRound x : ℚ)) := by
      push_cast
      ring
    rw [hsplit]
    have habs := abs_add ((pyRound (2 * x) : ℚ) - 2 * x)
      (2 * x - 2 * (pyRound x : ℚ))
    have h4 : |2 * x - 2 * (pyRound x : ℚ)| = 2 * |(pyRound x : ℚ) - x| := by
      rw [show 2 * x - 2 * (pyRound x : ℚ) = 2 * (x - (pyRound x : ℚ)) by ring,
        abs_mul, abs_sub_comm]
      norm_num
    rw [h4] at habs
    linarith
  by_contra hcon
  push_neg at hcon
  have h5 : (2 : ℤ) ≤ |pyRound (2 * x) - 2 * pyRound x| := hcon
  have h6 : (2 : ℚ) ≤ |((pyRound (2 * x) - 2 * pyRound x : ℤ) : ℚ)| := by
    rw [← Int.cast_abs]
    exact_mod_cast h5
  linarith

/-- C7: nutrition scaling is linear in the serving size — for any database,
food name and positive serving `s`, the calories computed for `2·s` differ
from twice the calories computed for `s` by at most 1 kcal of rounding. -/
theorem nutrition_scaling_linear (db : String → Option DBEntry)
    (food : String) (s : ℚ) (hs : 0 < s)
    (hdb : ∀ e, db food = some e → 0 < e.serving_size_g) :
    |(calculate_dynamic_nutrition db food (some (2 * s))).calories -
      2 * (calculate_dynamic_nutrition db food (some s)).calories| ≤ 1 := by
  rcases hdbe : db food with _ | e
  · rw [calculate_dynamic_nutrition, hdbe]
    rw [calculate_dynamic_nutrition, hdbe]
    dsimp only [fallbackServing]
    rw [show (fallbackBases (strLower food)).calories * (2 * s / 150) =
        2 * ((fallbackBases (strLower food)).calories * (s / 150)) by ring]
    exact pyRound_double _
  · have hS : 0 < e.serving_size_g := hdb e hdbe
    have hs0 : s ≠ 0 := ne_of_gt hs
    have hs2 : 2 * s ≠ 0 := by positivity
    rw [calculate_dynamic_nutrition, hdbe]
    rw [calculate_dynamic_nutrition, hdbe]
    dsimp only
    rw [if_neg hs2, if_neg hs0]
    rw [show e.calories * (2 * s / e.serving_size_g) =
        2 * (e.calories * (s / e.serving_size_g)) by ring]
    exact pyRound_double _

/-- C7 witness: the linearity bound at the fallback path for `"pizza"`,
serving 100 g. -/
theorem nutrition_scaling_linear_witness :
    (0 : ℚ) < 100 ∧
    |(calculate_dynamic_nutrition (fun _ => none) "pizza" (some (2 * 100))).calories -
      2 * (calculate_dynamic_nutrition (fun _ => none) "pizza" (some 100)).calories| ≤ 1 :=
  ⟨by norm_num,
   nutrition_scaling_linear (fun _ => none) "pizza" 100 (by norm_num)
     (fun e h => by cases h)⟩

/-! ### Helper lemmas about the vote dict and the fold structure -/

theorem addVote_ne_nil (l : List (String × ℚ)) (f : String) (v : ℚ) :
    addVote l f v ≠ [] := by
  rcases l with _ | ⟨⟨g, s⟩, rest⟩
  · simp [addVote]
  · rw [addVote]
    split <;> simp

theorem foldl_voteStep_ne_nil (r : EnsembleResults) :
    ∀ (ms : List Method) (acc : List (String × ℚ)),
      (acc ≠ [] ∨ ∃ m ∈ ms, (r m).isSome) →
      ms.foldl (voteStep r) acc ≠ [] := by
  intro ms
  induction ms with
  | nil =>
    intro acc h
    rcases h with h | ⟨m, hm, _⟩
    · simpa using h
    · cases hm
  | cons m t ih =>
    intro acc h
    rw [List.foldl_cons]
    apply ih
    rcases hrm : r m with _ | d
    · have hstep : voteStep r acc m = acc := by rw [voteStep, hrm]
      rw [hstep]
      rcases h with h | ⟨m2, hm2, hs⟩
      · exact Or.inl h
      · rcases List.mem_cons.mp hm2 with rfl | hm2t
        · rw [hrm] at hs
          simp at hs
        · exact Or.inr ⟨m2, hm2t, hs⟩
    · left
      rw [voteStep, hrm]
      exact addVote_ne_nil _ _ _

theorem voteScores_ne_nil (r : EnsembleResults) (m : Method)
    (hm : (r m).isSome) : voteScores r ≠ [] := by
  rw [voteScores]
  apply foldl_voteStep_ne_nil
  right
  refine ⟨m, ?_, hm⟩
  rcases m <;> simp [methodOrder]

theorem normVotes_ne_nil (r : EnsembleResults) (h : voteScores r ≠ []) :
    normVotes r ≠ [] := by
  rw [normVotes]
  split
  · simpa using h
  · exact h

theorem lookupScore_addVote (l : List (String × ℚ)) (g f : String) (v : ℚ) :
    lookupScore (addVote l g v) f =
      if g = f then lookupScore l f + v else lookupScore l f := by
  induction l with
  | nil => simp [addVote, lookupScore]
  | cons p rest ih =>
    obtain ⟨h0, s0⟩ := p
    rw [addVote]
    by_cases h1 : h0 = g
    · rw [if_pos h1]
      subst h1
      by_cases h2 : h0 = f
      · subst h2
        simp [lookupScore]
      · rw [lookupScore, if_neg h2, lookupScore, if_neg h2]
        rw [if_neg fun hc : h0 = f => h2 hc]
    · rw [if_neg h1, lookupScore]
      by_cases h2 : h0 = f
      · rw [if_pos h2]
        have hgf : g ≠ f := fun hc => h1 (h2.trans hc.symm)
        rw [if_neg hgf, lookupScore, if_pos h2]
      · rw [if_neg h2, ih, lookupScore, if_neg h2]

theorem lookupScore_foldl_voteStep (r : EnsembleResults) (f : String) :
    ∀ (ms : List Method) (acc : List (String × ℚ)),
      lookupScore (ms.foldl (voteStep r) acc) f =
        lookupScore acc f + (ms.map (contrib r f)).sum := by
  intro ms
  induction ms with
  | nil => intro acc; simp
  | cons m t ih =>
    intro acc
    rw [List.foldl_cons, ih, List.map_cons, List.sum_cons]
    have hstep : lookupScore (voteStep r acc m) f =
        lookupScore acc f + contrib r f m := by
      rw [voteStep, contrib]
      rcases hrm : r m with _ | d <;> dsimp only
      · simp
      · rw [lookupScore_addVote]
        split_ifs <;> simp
    rw [hstep]
    ring

theorem lookupScore_voteScores (r : EnsembleResults) (f : String) :
    lookupScore (voteScores r) f = rawScore r f := by
  rw [voteScores, rawScore, lookupScore_foldl_voteStep]
  simp [lookupScore]

theorem lookupScore_mapDiv (l : List (String × ℚ)) (c : ℚ) (f : String) :
    lookupScore (l.map (fun p => (p.1, p.2 / c))) f = lookupScore l f / c := by
  induction l with
  | nil => simp [lookupScore]
  | cons p rest ih =>
    obtain ⟨g, s⟩ := p
    simp only [List.map_cons]
    rw [lookupScore, lookupScore]
    split_ifs with h
    · rfl
    · exact ih

theorem lookupScore_normVotes (r : EnsembleResults) (h : 0 < totalWeight r)
    (f : String) :
    lookupScore (normVotes r) f = rawScore r f / totalWeight r := by
  rw [normVotes, if_pos h, lookupScore_mapDiv, lookupScore_voteScores]

theorem totalWeight_foldl (r : EnsembleResults) :
    ∀ (ms : List Method) (acc : ℚ),
      ms.foldl (weightStep r) acc = acc + (ms.map (wContrib r)).sum := by
  intro ms
  induction ms with
  | nil => intro acc; simp
  | cons m t ih =>
    intro acc
    rw [List.foldl_cons, ih, List.map_cons, List.sum_cons]
    have hstep : weightStep r acc m = acc + wContrib r m := by
      rw [weightStep, wContrib]
      rcases hrm : r m with _ | d <;> simp
    rw [hstep]
    ring

theorem totalWeight_eq (r : EnsembleResults) :
    totalWeight r = (methodOrder.map (wContrib r)).sum := by
  rw [totalWeight, totalWeight_foldl]
  ring

theorem methodWeight_pos (m : Method) : 0 < methodWeight m := by
  rcases m <;> norm_num [methodWeight]

theorem wContrib_nonneg (r : EnsembleResults) (m : Method) : 0 ≤ wContrib r m := by
  rcases hrm : r m with _ | d <;>
    simp [wContrib, hrm, le_of_lt (methodWeight_pos m)]

theorem totalWeight_pos (r : EnsembleResults) (m : Method) (hm : (r m).isSome) :
    0 < totalWeight r := by
  have h2 := wContrib_nonneg r .color_histogram
  have h3 := wContrib_nonneg r .huggingface
  have h4 := wContrib_nonneg r .feature_matching
  have h1 := wContrib_nonneg r .google_vision
  have hsum : totalWeight r = wContrib r .google_vision +
      wContrib r .color_histogram + wContrib r .huggingface +
      wContrib r .feature_matching := by
    rw [totalWeight_eq]
    simp [methodOrder]
    ring
  have hmw : wContrib r m = methodWeight m := by
    rcases hrm : r m with _ | d
    · rw [hrm] at hm
      simp at hm
    · simp [wContrib, hrm]
  have hpos := methodWeight_pos m
  rcases m <;> rw [hsum, hmw] at * <;> linarith

theorem keys_addVote (l : List (String × ℚ)) (f : String) (v : ℚ) :
    (addVote l f v).map Prod.fst =
      if f ∈ l.map Prod.fst then l.map Prod.fst else l.map Prod.fst ++ [f] := by
  induction l with
  | nil => simp [addVote]
  | cons p rest ih =>
    obtain ⟨g, s⟩ := p
    rw [addVote]
    by_cases h : g = f
    · subst h
      simp [List.mem_cons]
    · rw [if_neg h]
      simp only [List.map_cons, ih, List.mem_cons]
      have hfg : ¬ f = g := fun hc => h hc.symm
      by_cases hf : f ∈ rest.map Prod.fst
      · simp [hf, hfg]
      · simp [hf, hfg]

theorem nodupKeys_addVote (l : List (String × ℚ)) (f : String) (v : ℚ)
    (h : (l.map Prod.fst).Nodup) : ((addVote l f v).map Prod.fst).Nodup := by
  rw [keys_addVote]
  split_ifs with hf
  · exact h
  · rw [List.nodup_append]
    refine ⟨h, List.nodup_singleton f, ?_⟩
    intro a ha hfa
    rw [List.mem_singleton] at hfa
    exact hf (hfa ▸ ha)

theorem nodupKeys_voteScores (r : EnsembleResults) :
    ((voteScores r).map Prod.fst).Nodup := by
  rw [voteScores]
  have haux : ∀ (ms : List Method) (acc : List (String × ℚ)),
      (acc.map Prod.fst).Nodup →
      ((ms.foldl (voteStep r) acc).map Prod.fst).Nodup := by
    intro ms
    induction ms with
    | nil => intro acc h; simpa using h
    | cons m t ih =>
      intro acc h
      rw [List.foldl_cons]
      apply ih
      rw [voteStep]
      rcases hrm : r m with _ | d
      · exact h
      · exact nodupKeys_addVote _ _ _ h
  exact haux methodOrder [] (by simp)

theorem nodupKeys_normVotes (r : EnsembleResults) :
    ((normVotes r).map Prod.fst).Nodup := by
  rw [normVotes]
  split_ifs
  · have h2 : ((voteScores r).map (fun p => (p.1, p.2 / totalWeight r))).map
        Prod.fst = (voteScores r).map Prod.fst := by
      rw [List.map_map]
      rfl
    rw [h2]
    exact nodupKeys_voteScores r
  · exact nodupKeys_voteScores r

theorem lookupScore_eq_of_mem (l : List (String × ℚ)) (p : String × ℚ)
    (hnd : (l.map Prod.fst).Nodup) (hp : p ∈ l) : lookupScore l p.1 = p.2 := by
  induction l with
  | nil => cases hp
  | cons q rest ih =>
    obtain ⟨g, s⟩ := q
    rw [List.map_cons] at hnd
    rcases List.mem_cons.mp hp with rfl | hrest
    · simp [lookupScore]
    · have hne : g ≠ p.1 := by
        intro hc
        have hmem : p.1 ∈ rest.map Prod.fst := List.mem_map_of_mem Prod.fst hrest
        rw [← hc] at hmem
        exact (List.nodup_cons.mp hnd).1 hmem
      rw [lookupScore, if_neg hne]
      exact ih (List.nodup_cons.mp hnd).2 hrest

theorem firstMaxAux_mem : ∀ (l : List (String × ℚ)) (b : String × ℚ),
    firstMaxAux b l ∈ b :: l := by
  intro l
  induction l with
  | nil => intro b; simp [firstMaxAux]
  | cons p rest ih =>
    intro b
    rw [firstMaxAux]
    rcases List.mem_cons.mp (ih (if b.2 < p.2 then p else b)) with h | h
    · rw [h]
      split_ifs <;> simp
    · simp [h]

theorem firstMaxAux_le : ∀ (l : List (String × ℚ)) (b p : String × ℚ),
    p ∈ b :: l → p.2 ≤ (firstMaxAux b l).2 := by
  intro l
  induction l with
  | nil =>
    intro b p hp
    rw [firstMaxAux]
    rcases List.mem_cons.mp hp with rfl | h
    · exact le_refl _
    · cases h
  | cons q rest ih =>
    intro b p hp
    rw [firstMaxAux]
    have hb : b.2 ≤ (if b.2 < q.2 then q else b).2 := by
      split_ifs with h
      · exact le_of_lt h
      · exact le_refl _
    have hq : q.2 ≤ (if b.2 < q.2 then q else b).2 := by
      split_ifs with h
      · exact le_refl _
      · exact le_of_not_lt h
    rcases List.mem_cons.mp hp with rfl | hrest
    · exact le_trans hb (ih _ _ (List.mem_cons_self _ _))
    · rcases List.mem_cons.mp hrest with rfl | h2
      · exact le_trans hq (ih _ _ (List.mem_cons_self _ _))
      · exact ih _ p (List.mem_cons_of_mem _ h2)

theorem bonusStep_congr (r r2 : EnsembleResults) (t : String) (m : Method)
    (h : eligibleFood r m = eligibleFood r2 m) (ac : ℕ × ℕ) :
    bonusStep r t ac m = bonusStep r2 t ac m := by
  have h2 := h
  rw [eligibleFood, eligibleFood] at h2
  rw [bonusStep, bonusStep]
  rcases hr : r m with _ | d <;> rcases hr2 : r2 m with _ | d2 <;>
    rw [hr, hr2] at h2 <;> dsimp only at h2 ⊢
  · by_cases hc : (6:ℚ)/10 < d2.confidence
    · rw [if_pos hc] at h2
      exact absurd h2 (by simp)
    · rw [if_neg hc]
  · by_cases hc : (6:ℚ)/10 < d.confidence
    · rw [if_pos hc] at h2
      exact absurd h2 (by simp)
    · rw [if_neg hc]
  · by_cases hc1 : (6:ℚ)/10 < d.confidence
    · rw [if_pos hc1] at h2
      by_cases hc2 : (6:ℚ)/10 < d2.confidence
      · rw [if_pos hc2] at h2
        have hf : d.food = d2.food := by simpa using h2
        rw [if_pos hc1, if_pos hc2, hf]
      · rw [if_neg hc2] at h2
        exact absurd h2 (by simp)
    · rw [if_neg hc1] at h2
      by_cases hc2 : (6:ℚ)/10 < d2.confidence
      · rw [if_pos hc2] at h2
        exact absurd h2 (by simp)
      · rw [if_neg hc1, if_neg hc2]

theorem bonusCounts_congr (r r2 : EnsembleResults) (t : String)
    (h : ∀ m, eligibleFood r m = eligibleFood r2 m) :
    bonusCounts r t = bonusCounts r2 t := by
  rw [bonusCounts, bonusCounts]
  have haux : ∀ (ms : List Method) (ac : ℕ × ℕ),
      ms.foldl (bonusStep r t) ac = ms.foldl (bonusStep r2 t) ac := by
    intro ms
    induction ms with
    | nil => intro ac; rfl
    | cons m rest ih =>
      intro ac
      rw [List.foldl_cons, List.foldl_cons, bonusStep_congr r r2 t m (h m) ac, ih]
  exact haux methodOrder (0, 0)

theorem agreementBonus_congr (r r2 : EnsembleResults) (t : String)
    (h : ∀ m, eligibleFood r m = eligibleFood r2 m) :
    agreementBonus r t = agreementBonus r2 t := by
  rw [agreementBonus, agreementBonus, bonusCounts_congr r r2 t h]

theorem rawScore_le (r r2 : EnsembleResults) (f : String)
    (h : ∀ m, contrib r f m ≤ contrib r2 f m) :
    rawScore r f ≤ rawScore r2 f := by
  rw [rawScore, rawScore]
  apply List.sum_le_sum
  intro m hm
  exact h m

theorem combineResults_snd (r : EnsembleResults) (h : voteScores r ≠ []) :
    (combineResults r).2 = finalConfidence r := by
  rw [combineResults, if_neg h]
  split_ifs <;> rfl

theorem finalConfidence_eq (r : EnsembleResults) (h : normVotes r ≠ []) :
    finalConfidence r = min (98/100)
      (lookupScore (normVotes r) (bestFood r) + agreementBonus r (bestFood r)) := by
  rw [finalConfidence, if_neg h]

/-- C4: when no method produced a detection, the combiner returns exactly
`("unidentified food", 0.50)`. -/
theorem ensemble_no_detection_fallback (r : EnsembleResults)
    (h : ∀ m, r m = none) :
    combineResults r = ("unidentified food", 50/100) := by
  have hv : voteScores r = [] := by
    simp [voteScores, methodOrder, voteStep, h]
  rw [combineResults, if_pos hv]

/-- C4 witness: the all-`none` mapping. -/
theorem ensemble_no_detection_fallback_witness :
    combineResults (fun _ => none) = ("unidentified food", 50/100) :=
  ensemble_no_detection_fallback (fun _ => none) (fun _ => rfl)

/-- C2 counterexample: raising the color-histogram confidence from 0.60 to
0.61 — every other method's label and confidence fixed — lowers the final
confidence (from 17/26 ≈ 0.654 to 157/260 ≈ 0.604): crossing the 0.6
agreement-eligibility threshold shrinks the agreement bonus from 0.10 to
0.05 while the base score of the winning label is unchanged. -/
theorem ensemble_confidence_not_monotone :
    cexBefore Method.color_histogram = some ⟨"salad", 6/10, none⟩ ∧
    cexAfter Method.color_histogram = some ⟨"salad", 61/100, none⟩ ∧
    cexAfter Method.google_vision = cexBefore Method.google_vision ∧
    cexAfter Method.huggingface = cexBefore Method.huggingface ∧
    cexAfter Method.feature_matching = cexBefore Method.feature_matching ∧
    ((6:ℚ)/10 < 61/100) ∧
    (combineResults cexAfter).2 < (combineResults cexBefore).2 := by
  refine ⟨rfl, rfl, rfl, rfl, rfl, by norm_num, ?_⟩
  norm_num [combineResults, finalConfidence, normVotes, voteScores, totalWeight,
    methodOrder, methodWeight, voteStep, weightStep, addVote, bestFood, firstMaxAux,
    lookupScore, agreementBonus, bonusCounts, bonusStep, cexBefore, cexAfter,
    List.cons_ne_nil,
    show ("pizza" : String) ≠ "salad" by decide,
    show ("salad" : String) ≠ "pizza" by decide]

/-- C2 (amended): the final confidence is monotone in a single method's
confidence provided the change neither moves that method across the 0.6
agreement-eligibility threshold nor changes the winning label. -/
theorem ensemble_confidence_monotone_amended (r r2 : EnsembleResults)
    (m0 : Method) (d d2 : MethodResult)
    (hm : r m0 = some d) (hm2 : r2 m0 = some d2)
    (hfood : d2.food = d.food) (hconf : d.confidence ≤ d2.confidence)
    (hother : ∀ m, m ≠ m0 → r2 m = r m)
    (helig : ((6:ℚ)/10 < d.confidence) ↔ ((6:ℚ)/10 < d2.confidence))
    (hbest : bestFood r2 = bestFood r) :
    (combineResults r).2 ≤ (combineResults r2).2 := by
  have hw : totalWeight r2 = totalWeight r := by
    rw [totalWeight_eq, totalWeight_eq]
    have hc : ∀ m, wContrib r2 m = wContrib r m := by
      intro m
      by_cases hmm0 : m = m0
      · subst hmm0
        rw [wContrib, wContrib, hm, hm2]
      · rw [wContrib, wContrib, hother m hmm0]
    rw [funext hc]
  have htw : 0 < totalWeight r := totalWeight_pos r m0 (by simp [hm])
  have htw2 : 0 < totalWeight r2 := hw ▸ htw
  have hvne : voteScores r ≠ [] := voteScores_ne_nil r m0 (by simp [hm])
  have hvne2 : voteScores r2 ≠ [] := voteScores_ne_nil r2 m0 (by simp [hm2])
  have hnne : normVotes r ≠ [] := normVotes_ne_nil r hvne
  have hnne2 : normVotes r2 ≠ [] := normVotes_ne_nil r2 hvne2
  have hbonus : agreementBonus r2 (bestFood r) = agreementBonus r (bestFood r) := by
    apply agreementBonus_congr
    intro m
    by_cases hmm0 : m = m0
    · subst hmm0
      rw [eligibleFood, eligibleFood, hm, hm2]
      dsimp only
      by_cases hc : (6:ℚ)/10 < d.confidence
      · rw [if_pos hc, if_pos (helig.mp hc), hfood]
      · rw [if_neg (fun hc2 => hc (helig.mpr hc2)), if_neg hc]
    · rw [eligibleFood, eligibleFood, hother m hmm0]
  have hraw : rawScore r (bestFood r) ≤ rawScore r2 (bestFood r) := by
    apply rawScore_le
    intro m
    by_cases hmm0 : m = m0
    · subst hmm0
      rw [contrib, contrib, hm, hm2]
      dsimp only
      rw [hfood]
      split_ifs with hf
      · exact mul_le_mul_of_nonneg_right hconf (le_of_lt (methodWeight_pos m))
      · exact le_refl 0
    · rw [contrib, contrib, hother m hmm0]
  rw [combineResults_snd r hvne, combineResults_snd r2 hvne2,
    finalConfidence_eq r hnne, finalConfidence_eq r2 hnne2, hbest,
    lookupScore_normVotes r htw, lookupScore_normVotes r2 htw2, hw, hbonus]
  apply min_le_min (le_refl _)
  apply add_le_add _ (le_refl _)
  gcongr

/-- C2 amended-claim witness: raising the lone detection's confidence from
0.7 to 0.8 keeps eligibility and the winner, and the final confidence does
not decrease. -/
theorem ensemble_confidence_monotone_amended_witness :
    (combineResults cexMonoA).2 ≤ (combineResults cexMonoB).2 :=
  ensemble_confidence_monotone_amended cexMonoA cexMonoB Method.google_vision
    ⟨"pizza", 7/10, none⟩ ⟨"pizza", 8/10, none⟩ rfl rfl rfl (by norm_num)
    (fun m hm => by rcases m <;> first | exact absurd rfl hm | rfl)
    (by norm_num)
    (by norm_num [bestFood, normVotes, voteScores, totalWeight, methodOrder,
      methodWeight, voteStep, weightStep, addVote, firstMaxAux,
      cexMonoA, cexMonoB, List.cons_ne_nil])

/-- C8: with at least one detection, the combiner's best label maximizes the
weight-normalized score; the final confidence is `min(0.98, base + bonus)`
(so it never exceeds 0.98) where the agreement bonus is exactly 0.10 when at
least 75% of the methods reporting confidence above 0.6 agree on the winning
label, 0.05 when at least 50% agree, and 0 otherwise (including when no
method reports confidence above 0.6). -/
theorem ensemble_pick_and_bonus (r : EnsembleResults) (m : Method)
    (hm : (r m).isSome) :
    (∀ p ∈ normVotes r, p.2 ≤ lookupScore (normVotes r) (bestFood r)) ∧
    finalConfidence r = min (98/100)
      (lookupScore (normVotes r) (bestFood r) + agreementBonus r (bestFood r)) ∧
    agreementBonus r (bestFood r) =
      (if (bonusCounts r (bestFood r)).2 ≠ 0 ∧
          3 * (bonusCounts r (bestFood r)).2 ≤ 4 * (bonusCounts r (bestFood r)).1
        then 10/100
        else if (bonusCounts r (bestFood r)).2 ≠ 0 ∧
            (bonusCounts r (bestFood r)).2 ≤ 2 * (bonusCounts r (bestFood r)).1
          then 5/100 else 0) ∧
    (combineResults r).2 ≤ 98/100 := by
  have hvne : voteScores r ≠ [] := voteScores_ne_nil r m hm
  have hnne : normVotes r ≠ [] := normVotes_ne_nil r hvne
  obtain ⟨p0, rest, hsplit⟩ : ∃ p0 rest, normVotes r = p0 :: rest := by
    rcases hnv : normVotes r with _ | ⟨p0, rest⟩
    · exact absurd hnv hnne
    · exact ⟨p0, rest, rfl⟩
  have hbf : bestFood r = (firstMaxAux p0 rest).1 := by
    rw [bestFood, hsplit]
  refine ⟨?_, finalConfidence_eq r hnne, ?_, ?_⟩
  · intro p hp
    have hmem : firstMaxAux p0 rest ∈ normVotes r := by
      rw [hsplit]
      exact firstMaxAux_mem rest p0
    have hlook : lookupScore (normVotes r) (firstMaxAux p0 rest).1 =
        (firstMaxAux p0 rest).2 :=
      lookupScore_eq_of_mem _ _ (nodupKeys_normVotes r) hmem
    rw [hbf, hlook]
    apply firstMaxAux_le
    rw [← hsplit]
    exact hp
  · rw [agreementBonus]
    dsimp only
    by_cases h0 : (bonusCounts r (bestFood r)).2 = 0
    · rw [if_pos h0, if_neg (by simp [h0]), if_neg (by simp [h0])]
    · rw [if_neg h0]
      have hpos : (0:ℚ) < ((bonusCounts r (bestFood r)).2 : ℚ) := by
        exact_mod_cast Nat.pos_of_ne_zero h0
      have hiff1 : (75/100 : ℚ) ≤ ((bonusCounts r (bestFood r)).1 : ℚ) /
          ((bonusCounts r (bestFood r)).2 : ℚ) ↔
          3 * (bonusCounts r (bestFood r)).2 ≤ 4 * (bonusCounts r (bestFood r)).1 := by
        rw [le_div_iff₀ hpos]
        constructor
        · intro h
          have h2 : (3 : ℚ) * ((bonusCounts r (bestFood r)).2 : ℚ) ≤
              4 * ((bonusCounts r (bestFood r)).1 : ℚ) := by linarith
          exact_mod_cast h2
        · intro h
          have h2 : (3 : ℚ) * ((bonusCounts r (bestFood r)).2 : ℚ) ≤
              4 * ((bonusCounts r (bestFood r)).1 : ℚ) := by exact_mod_cast h
          linarith
      have hiff2 : (1/2 : ℚ) ≤ ((bonusCounts r (bestFood r)).1 : ℚ) /
          ((bonusCounts r (bestFood r)).2 : ℚ) ↔
          (bonusCounts r (bestFood r)).2 ≤ 2 * (bonusCounts r (bestFood r)).1 := by
        rw [le_div_iff₀ hpos]
        constructor
        · intro h
          have h2 : ((bonusCounts r (bestFood r)).2 : ℚ) ≤
              2 * ((bonusCounts r (bestFood r)).1 : ℚ) := by linarith
          exact_mod_cast h2
        · intro h
          have h2 : ((bonusCounts r (bestFood r)).2 : ℚ) ≤
              2 * ((bonusCounts r (bestFood r)).1 : ℚ) := by exact_mod_cast h
          linarith
      by_cases hb1 : 3 * (bonusCounts r (bestFood r)).2 ≤
          4 * (bonusCounts r (bestFood r)).1
      · rw [if_pos (hiff1.mpr hb1), if_pos ⟨h0, hb1⟩]
      · rw [if_neg (fun hcon => hb1 (hiff1.mp hcon)),
          if_neg (fun hcon : _ ∧ _ => hb1 hcon.2)]
        by_cases hb2 : (bonusCounts r (bestFood r)).2 ≤
            2 * (bonusCounts r (bestFood r)).1
        · rw [if_pos (hiff2.mpr hb2), if_pos ⟨h0, hb2⟩]
        · rw [if_neg (fun hcon => hb2 (hiff2.mp hcon)),
            if_neg (fun hcon : _ ∧ _ => hb2 hcon.2)]
  · rw [combineResults_snd r hvne, finalConfidence_eq r hnne]
    exact min_le_left _ _

/-- C8 witness: the final-confidence equation and the 0.98 cap at a concrete
two-method input. -/
theorem ensemble_pick_and_bonus_witness :
    finalConfidence cexBefore = min (98/100)
      (lookupScore (normVotes cexBefore) (bestFood cexBefore) +
        agreementBonus cexBefore (bestFood cexBefore)) ∧
    (combineResults cexBefore).2 ≤ 98/100 :=
  ⟨(ensemble_pick_and_bonus cexBefore Method.google_vision rfl).2.1,
   (ensemble_pick_and_bonus cexBefore Method.google_vision rfl).2.2.2⟩

/-- C9: when the final confidence falls strictly below 0.60, the combiner
returns the generic category derived from the dominant color — one of
`"vegetable dish"`, `"meat dish"`, `"grain dish"` or `"mixed dish"` — while
keeping the computed confidence. -/
theorem low_confidence_generic (r : EnsembleResults) (m : Method)
    (hm : (r m).isSome) (hlow : finalConfidence r < 60/100) :
    combineResults r = (genericCategory r, finalConfidence r) ∧
    (genericCategory r = "vegetable dish" ∨ genericCategory r = "meat dish" ∨
      genericCategory r = "grain dish" ∨ genericCategory r = "mixed dish") := by
  constructor
  · have hv : voteScores r ≠ [] := voteScores_ne_nil r m hm
    rw [combineResults, if_neg hv, if_pos hlow]
  · rw [genericCategory]
    rcases hmc : mergedDominantColors r with _ | ls
    · simp
    · rcases ls with _ | ⟨c, cs⟩
      · simp
      · dsimp only
        split_ifs <;> simp

/-- C9 witness: a lone 0.3-confidence detection with no feature bag yields
the generic `"mixed dish"` with the computed confidence kept. -/
theorem low_confidence_generic_witness :
    combineResults lowConfResults =
      (genericCategory lowConfResults, finalConfidence lowConfResults) ∧
    (genericCategory lowConfResults = "vegetable dish" ∨
      genericCategory lowConfResults = "meat dish" ∨
      genericCategory lowConfResults = "grain dish" ∨
      genericCategory lowConfResults = "mixed dish") :=
  low_confidence_generic lowConfResults Method.google_vision rfl
    (by norm_num [finalConfidence, normVotes, voteScores, totalWeight, methodOrder,
      methodWeight, voteStep, weightStep, addVote, bestFood, firstMaxAux,
      lookupScore, agreementBonus, bonusCounts, bonusStep, lowConfResults,
      List.cons_ne_nil])

/-- C10: on a successful analysis, a top-1 confidence strictly below 0.6
appends `" (estimated)"` to the resolved food name, and a confidence at or
above 0.6 returns the resolved name unchanged. -/
theorem analyze_estimated_suffix (resolveName : List (String × ℚ) → String)
    (fallbackFood f : String) (c : ℚ) (rest : List (String × ℚ)) :
    (c < 6/10 → analyzeProfileName resolveName fallbackFood ((f, c) :: rest) =
      some (resolveName (if c < 4/10 then [(fallbackFood, 4/10)]
        else (f, c) :: rest) ++ " (estimated)")) ∧
    (6/10 ≤ c → analyzeProfileName resolveName fallbackFood ((f, c) :: rest) =
      some (resolveName ((f, c) :: rest))) := by
  constructor
  · intro h
    rw [analyzeProfileName]
    rw [if_pos h]
  · intro h
    have h4 : ¬ c < 4/10 := by linarith
    have h6 : ¬ c < 6/10 := by linarith
    rw [analyzeProfileName]
    rw [if_neg h4, if_neg h6]
    split_ifs <;> rfl

/-- C10 witness: confidence 0.5 gets the suffix, confidence 0.7 does not. -/
theorem analyze_estimated_suffix_witness :
    analyzeProfileName (fun _ => "pizza") "mixed dish" [("pizza", 1/2)] =
      some ("pizza" ++ " (estimated)") ∧
    analyzeProfileName (fun _ => "pizza") "mixed dish" [("pizza", 7/10)] =
      some "pizza" :=
  ⟨(analyze_estimated_suffix (fun _ => "pizza") "mixed dish" "pizza" (1/2) []).1
      (by norm_num),
   (analyze_estimated_suffix (fun _ => "pizza") "mixed dish" "pizza" (7/10) []).2
      (by norm_num)⟩
